import Mathlib

set_option maxRecDepth 8192

/-!
Shallow embedding of the `fresh` find/replace tool (`src/main.rs`).

The program reads its input line-by-line with `BufRead::read_line` (which
keeps the trailing `'\n'` in the buffer) and, for each line, runs one of
four per-record algorithms selected by the CLI flags:

* `regex_replace`  : `re.replacen(&buff, n, repl)` / `re.replace_all(&buff, repl)`
* `static_replace` : `buff.splitn(n, patt)` / `buff.split(patt)`, re-joined with `repl`
* `regex_extract`  : a hand-rolled `find_at` loop writing each match (or
  `re.replace` of the matched slice when a template is given), then `"\n"`
  when at least one match was written
* `static_extract` : `buff.matches(patt)` bounded by `n`, writing the
  template (or the pattern) per match, then `"\n"` when something matched

Strings are modelled as `List Char`.  The external regex engine is modelled
by the abstract interface `RxMatcher` (a compiled pattern's `find_at` plus
capture expansion of a template); the iteration/replacement strategies built
on top of it (`find_iter`, `replacen`, `replace_all`, `replace`) follow the
regex crate's implementation, including its two corner cases that matter
here: `replacen` with `limit == 0` replaces every match, and `find_iter`
advances one position past a zero-width match.  The program's own
`regex_extract` loop does NOT use `find_iter`; it is modelled separately,
exactly as written (`cap_idx = m.end()` with no zero-width adjustment).
-/

/-- Abstract interface of a compiled regex pattern.
`findAt hay i` is `Regex::find_at(hay, i)`: the leftmost match whose start
is at least `i`, returned as (start, end) offsets into `hay`.
`expand tmpl hay span` is the capture expansion of replacement template
`tmpl` for the match at `span` in `hay` (the regex crate's
`Replacer::replace_append`). -/
structure RxMatcher where
  findAt : List Char → Nat → Option (Nat × Nat)
  expand : List Char → List Char → Nat × Nat → List Char

/-- The slice `r[s..e]` of a record (Rust `&buff[s..e]`, `m.as_str()`). -/
def extractSlice (r : List Char) (s e : Nat) : List Char :=
  (r.drop s).take (e - s)

/-- Leftmost occurrence of the literal `patt` in `r` starting at or after
position `p`: Rust substring search, also the `find_at` of a compiled regex
whose pattern is a literal string. Returns the (start, end) span. -/
def litFindAt (patt r : List Char) (p : Nat) : Option (Nat × Nat) :=
  (((List.range (r.length + 1)).filter
      (fun i => decide (p ≤ i) && decide ((r.drop i).take patt.length = patt))).head?).map
    (fun i => (i, i + patt.length))

/-- Leftmost occurrence of `patt` in `r` (Rust `str::find`). -/
def findSub (patt r : List Char) : Option Nat :=
  (litFindAt patt r 0).map (fun q => q.1)

/-- A compiled regex whose pattern is the literal string `patt` and whose
replacement templates contain no capture references, so expansion is the
literal template (the regex crate's `no_expansion` fast path). -/
def litMatcher (patt : List Char) : RxMatcher where
  findAt := litFindAt patt
  expand := fun tmpl _ _ => tmpl

/-- A compiled regex that matches the empty string at every position, e.g.
the pattern `x*` run over a haystack containing no `x` (or the pattern
itself being empty). `find_at(hay, i)` yields the zero-width match
`(i, i)` whenever `i` is a valid position. -/
def emptyMatcher : RxMatcher where
  findAt := fun hay i => if i ≤ hay.length then some (i, i) else none
  expand := fun tmpl _ _ => tmpl

/-- A compiled regex for the pattern `"."`: it matches exactly one
character — any character other than `'\n'` (the regex crate's default dot
semantics) — at the leftmost eligible position at or after the query
position.  The template `"."` contains no capture references, so expansion
is the literal template. -/
def dotMatcher : RxMatcher where
  findAt := fun hay p =>
    (((List.range hay.length).filter
        (fun i => decide (p ≤ i) && decide (hay.getD i '\n' ≠ '\n'))).head?).map
      (fun i => (i, i + 1))
  expand := fun tmpl _ _ => tmpl

/-- One pass of the regex crate's `Matches` iterator (`find_iter`),
fuelled.  State: `lastEnd` (next search position), `lastMatch` (end of the
previously yielded match).  A zero-width match advances `lastEnd` one past
the match end, and is skipped when it sits exactly at the previous match's
end; a nonzero-width match sets `lastEnd` to its end. -/
def findIterFuel (m : RxMatcher) (text : List Char) :
    Nat → Nat → Option Nat → List (Nat × Nat)
  | 0, _, _ => []
  | fuel + 1, lastEnd, lastMatch =>
    if text.length < lastEnd then []
    else
      match m.findAt text lastEnd with
      | none => []
      | some (s, e) =>
        if s = e then
          if lastMatch = some e then findIterFuel m text fuel (e + 1) lastMatch
          else (s, e) :: findIterFuel m text fuel (e + 1) (some e)
        else (s, e) :: findIterFuel m text fuel e (some e)

/-- The full match sequence of `find_iter` over `text`. -/
def findIterList (m : RxMatcher) (text : List Char) : List (Nat × Nat) :=
  findIterFuel m text (text.length + 2) 0 none

/-- The accumulation loop of the regex crate's `replacen`: for each used
match, push the unmatched gap since `lastEnd` and the expanded template;
after the last one, push the rest of `text`. -/
def replBuild (m : RxMatcher) (repl text : List Char) :
    List (Nat × Nat) → Nat → List Char
  | [], lastEnd => text.drop lastEnd
  | (s, e) :: rest, lastEnd =>
    extractSlice text lastEnd s ++ m.expand repl text (s, e) ++
      replBuild m repl text rest e

/-- `Regex::replacen(text, limit, repl)` from the regex crate: if there is
no match the text is returned unchanged (`Cow::Borrowed`); otherwise the
first `limit` matches of `find_iter` are replaced — and a `limit` of `0`
means every match is replaced (`if limit > 0 && i >= limit break` in the
crate's loop never fires). -/
def regexReplacen (m : RxMatcher) (text : List Char) (limit : Nat)
    (repl : List Char) : List Char :=
  let spans := findIterList m text
  if spans.isEmpty then text
  else replBuild m repl text (if limit = 0 then spans else spans.take limit) 0

/-- `Regex::replace(text, repl)`: the crate defines it as
`replacen(text, 1, repl)`. -/
def regexReplace1 (m : RxMatcher) (text : List Char) (repl : List Char) :
    List Char :=
  regexReplacen m text 1 repl

/-- One record of `regex_replace` (`src/main.rs` lines 68–71):
`Some n → re.replacen(&buff, n, repl)`, `None → re.replace_all(&buff, repl)`;
the crate defines `replace_all` as `replacen(text, 0, repl)`. -/
def regex_replace_record (m : RxMatcher) (repl : List Char)
    (bound : Option Nat) (r : List Char) : List Char :=
  match bound with
  | some n => regexReplacen m r n repl
  | none => regexReplacen m r 0 repl

/-- `BufRead::read_line`: split off the first line of the input, up to AND
INCLUDING the first `'\n'` (the whole rest of the input if it contains no
`'\n'`). Returns (line, rest). -/
def read_line : List Char → List Char × List Char
  | [] => ([], [])
  | c :: rest =>
    if c = '\n' then ([c], rest)
    else
      let p := read_line rest
      (c :: p.1, p.2)

/-- Rust `str::splitn(n, patt)`: at most `n` chunks; `n = 0` yields no
chunks at all, and the last chunk keeps the remainder unsplit. -/
def splitnList : Nat → List Char → List Char → List (List Char)
  | 0, _, _ => []
  | 1, _, s => [s]
  | n + 2, patt, s =>
    match findSub patt s with
    | none => [s]
    | some i => s.take i :: splitnList (n + 1) patt (s.drop (i + patt.length))

/-- Rust `str::split(patt)`, fuelled; the fuel never runs out when `patt`
is nonempty (each step consumes at least one character of `s`). -/
def splitFuel : Nat → List Char → List Char → List (List Char)
  | 0, _, s => [s]
  | fuel + 1, patt, s =>
    match findSub patt s with
    | none => [s]
    | some i => s.take i :: splitFuel fuel patt (s.drop (i + patt.length))

/-- Rust `str::split(patt)` over a whole record. -/
def splitList (patt s : List Char) : List (List Char) :=
  splitFuel (s.length + 1) patt s

/-- Writing pattern of `static_replace`'s inner loop: the first chunk, then
`repl ++ chunk` for every later chunk (nothing at all when there are no
chunks). -/
def joinSep (sep : List Char) : List (List Char) → List Char
  | [] => []
  | c :: rest => c ++ (rest.map (fun d => sep ++ d)).flatten

/-- One record of `static_replace` (`src/main.rs` lines 104–137):
`Some n → buff.splitn(n, patt)`, `None → buff.split(patt)`, chunks written
with `repl` between them. -/
def static_replace_record (patt repl : List Char) (bound : Option Nat)
    (r : List Char) : List Char :=
  match bound with
  | some n => joinSep repl (splitnList n patt r)
  | none => joinSep repl (splitList patt r)

/-- The `static_replace` session loop (lines 96–139): `read_line` until it
returns 0 bytes, processing each line; fuelled by the input length. -/
def staticReplaceStreamFuel (patt repl : List Char) (bound : Option Nat) :
    Nat → List Char → List Char
  | 0, _ => []
  | fuel + 1, input =>
    if input.isEmpty then []
    else
      let p := read_line input
      static_replace_record patt repl bound p.1 ++
        staticReplaceStreamFuel patt repl bound fuel p.2

/-- Output of `static_replace` on a whole input stream. -/
def static_replace_stream (patt repl : List Char) (bound : Option Nat)
    (input : List Char) : List Char :=
  staticReplaceStreamFuel patt repl bound (input.length + 1) input

/-- Rust `str::matches(patt)` spans, fuelled: leftmost non-overlapping
occurrences; an empty pattern matches at every position (the searcher
advances one position past a zero-width match). -/
def matchesFuel (patt r : List Char) : Nat → Nat → List (Nat × Nat)
  | 0, _ => []
  | fuel + 1, p =>
    match litFindAt patt r p with
    | none => []
    | some (s, e) =>
      (s, e) :: matchesFuel patt r fuel (if patt.isEmpty then e + 1 else e)

/-- All matches of `patt` in `r` (Rust `buff.matches(patt)`). -/
def matchesList (patt r : List Char) : List (Nat × Nat) :=
  matchesFuel patt r (r.length + 2) 0

/-- The matches actually consumed under the per-record bound: the
`enumerate` + `if n >= n_rep break` pattern consumes the first `n_rep`
matches (all of them when the bound is `None`). -/
def boundTake (bound : Option Nat) (ms : List (Nat × Nat)) : List (Nat × Nat) :=
  match bound with
  | some b => ms.take b
  | none => ms

/-- One record of `static_extract` (`src/main.rs` lines 228–248): for each
match, bounded by `n_rep` (`enumerate` + `break` = `boundTake`), write the
template (or the pattern itself when there is none); write `"\n"` exactly
when at least one chunk was written. -/
def static_extract_record (patt : List Char) (repl : Option (List Char))
    (bound : Option Nat) (r : List Char) : List Char :=
  if (boundTake bound (matchesList patt r)).isEmpty then []
  else ((boundTake bound (matchesList patt r)).map (fun _ => repl.getD patt)).flatten
    ++ ['\n']

/-- The bound test of `regex_extract`'s loop: `n >= n_rep` when a bound is
present, never when `n_rep` is `None`. -/
def stopCheck : Option Nat → Nat → Bool
  | none, _ => false
  | some b, n => decide (b ≤ n)

/-- What `regex_extract` writes for one match at span (s, e) (lines
179–188): with a template, `re.replace(&buff[m.start()..m.end()], repl)` —
the compiled pattern re-run against the matched slice alone; without one,
`m.as_str()`, the raw matched slice. -/
def exContrib (m : RxMatcher) (repl : Option (List Char)) (r : List Char)
    (s e : Nat) : List Char :=
  match repl with
  | some tmpl => regexReplace1 m (extractSlice r s e) tmpl
  | none => extractSlice r s e

/-- The `while let Some(m) = re.find_at(&buff, cap_idx)` loop of
`regex_extract` (lines 170–192), fuelled.  State: match count `n`, scan
position `capIdx`, accumulated output `acc`, `matched` flag.  Note the
loop resumes at `m.end()` with no adjustment for zero-width matches. -/
def exLoop (m : RxMatcher) (repl : Option (List Char)) (bound : Option Nat)
    (r : List Char) : Nat → Nat → Nat → List Char → Bool → List Char × Bool
  | 0, _, _, acc, matched => (acc, matched)
  | fuel + 1, n, capIdx, acc, matched =>
    match m.findAt r capIdx with
    | none => (acc, matched)
    | some (s, e) =>
      if stopCheck bound n then (acc, matched)
      else exLoop m repl bound r fuel (n + 1) e (acc ++ exContrib m repl r s e) true

/-- The match spans the `regex_extract` loop consumes, collected with the
same traversal (same fuel, bound test and `cap_idx = m.end()` advance) as
`exLoop`. -/
def exSpans (m : RxMatcher) (bound : Option Nat) (r : List Char) :
    Nat → Nat → Nat → List (Nat × Nat)
  | 0, _, _ => []
  | fuel + 1, n, capIdx =>
    match m.findAt r capIdx with
    | none => []
    | some (s, e) =>
      if stopCheck bound n then []
      else (s, e) :: exSpans m bound r fuel (n + 1) e

/-- The spans consumed for one record by `regex_extract`. -/
def extractSpans (m : RxMatcher) (bound : Option Nat) (r : List Char) :
    List (Nat × Nat) :=
  exSpans m bound r (r.length + 1) 0 0

/-- One record of `regex_extract` (lines 170–197): run the loop, then
write `"\n"` exactly when `matched` was set. -/
def regex_extract_record (m : RxMatcher) (repl : Option (List Char))
    (bound : Option Nat) (r : List Char) : List Char :=
  let p := exLoop m repl bound r (r.length + 1) 0 0 [] false
  if p.2 then p.1 ++ ['\n'] else p.1

/-- The mutable state of `regex_extract`'s per-record loop. -/
structure ExState where
  n : Nat
  capIdx : Nat
  acc : List Char
  matched : Bool
deriving DecidableEq, Repr

/-- One iteration of `regex_extract`'s loop as a step function; `none`
means the loop exits (no match found, or the bound was reached). -/
def extractStep (m : RxMatcher) (repl : Option (List Char))
    (bound : Option Nat) (r : List Char) (st : ExState) : Option ExState :=
  match m.findAt r st.capIdx with
  | none => none
  | some (s, e) =>
    if stopCheck bound st.n then none
    else some ⟨st.n + 1, e, st.acc ++ exContrib m repl r s e, true⟩

/-- The loop state after `k` iterations of `regex_extract`'s loop from the
initial state (`n = 0`, `cap_idx = 0`, empty output, `matched = false`);
`none` once the loop has exited. -/
def extractIter (m : RxMatcher) (repl : Option (List Char))
    (bound : Option Nat) (r : List Char) : Nat → Option ExState
  | 0 => some ⟨0, 0, [], false⟩
  | k + 1 => (extractIter m repl bound r k).bind (extractStep m repl bound r)

/-! ### Theorems -/

/-- Claim C1: the spec's bounded-count property — with `max = m` and more
than `m` occurrences, Replace mode performs exactly `m` leftmost-first
substitutions in both match modes, and in particular the spec's own
scenario input `"aaa\n"`, pattern `"a"`, template `"b"`, Verbatim+Replace,
`max = 1` yields `"baa\n"`.  The code disagrees in Verbatim mode: the
bounded branch of `static_replace` uses `buff.splitn(n, patt)`, which
yields at most `n` chunks and therefore at most `n - 1` substitutions, so
at the scenario input it performs zero substitutions and outputs `"aaa\n"`;
`max = 2` is needed to obtain `"baa\n"`, while the Regex branch
(`re.replacen(&buff, 1, repl)`) does produce `"baa\n"` at `max = 1`. -/
theorem fresh_c1_eval :
    static_replace_record "a".toList "b".toList (some 1) "aaa\n".toList
        = "aaa\n".toList ∧
      static_replace_record "a".toList "b".toList (some 2) "aaa\n".toList
        = "baa\n".toList ∧
      regex_replace_record (litMatcher "a".toList) "b".toList (some 1)
        "aaa\n".toList = "baa\n".toList := by
  decide

/-- Claim C2: the spec says `max = 0` in Replace mode is the identity
transform in both match modes.  The code disagrees in both modes at the
record `"aa\n"` with pattern `"a"` and template `"b"`: the Verbatim branch
calls `buff.splitn(0, patt)`, which yields no chunks at all, so the record
is dropped from the output entirely; the Regex branch calls
`re.replacen(&buff, 0, repl)`, and the regex crate treats a limit of `0`
as "replace every match", producing `"bb\n"`. -/
theorem fresh_c2_eval :
    static_replace_record "a".toList "b".toList (some 0) "aa\n".toList = [] ∧
      regex_replace_record (litMatcher "a".toList) "b".toList (some 0)
        "aa\n".toList = "bb\n".toList := by
  decide

/-- Claim C3, counterexample: a record produced by the reader DOES include
the delimiter that ended it, and a pattern containing the delimiter byte
CAN match inside a single record.  On input `"ba\n"`, `read_line` yields
the record `"ba\n"` — `'\n'` included — and the pattern `"a\n"` matches
inside it at offset 1. -/
theorem fresh_c3_cex :
    (read_line "ba\n".toList).1 = "ba\n".toList ∧
      '\n' ∈ (read_line "ba\n".toList).1 ∧
      findSub "a\n".toList (read_line "ba\n".toList).1 = some 1 := by
  decide

/-- Claim C3, amended: every record processed by the loops is the input up
to and INCLUDING the first delimiter (so a pattern containing the
delimiter byte can match inside a record): the record and the unread rest
re-assemble the input, and no character of the record other than possibly
its last one is the delimiter `'\n'`. -/
theorem fresh_c3_amended :
    ∀ input : List Char,
      (read_line input).1 ++ (read_line input).2 = input ∧
        ∀ c ∈ (read_line input).1.dropLast, c ≠ '\n' := by
  intro input
  induction input with
  | nil => simp [read_line]
  | cons c rest ih =>
    by_cases hc : c = '\n'
    · subst hc
      simp [read_line]
    · refine ⟨?_, ?_⟩
      · simp only [read_line, if_neg hc]
        simpa using ih.1
      · simp only [read_line, if_neg hc]
        intro x hx
        cases hrest : (read_line rest).1 with
        | nil => rw [hrest] at hx; simp [List.dropLast] at hx
        | cons y l =>
          rw [hrest] at hx
          simp only [List.dropLast, List.mem_cons] at hx
          rcases hx with hx | hx
          · rw [hx]; exact hc
          · exact ih.2 x (by rw [hrest]; exact hx)

/-- Claim C6: in Extract mode with bound `max = 0`, every record emits
nothing — empty accumulated output and no record terminator — in both the
Regex and the Verbatim match mode.  In `regex_extract` the bound test
`n >= n_rep` fires before the first write, leaving `matched` false; in
`static_extract` the `enumerate` bound breaks before the first write. -/
theorem fresh_c6 :
    (∀ (m : RxMatcher) (repl : Option (List Char)) (r : List Char),
        regex_extract_record m repl (some 0) r = []) ∧
      ∀ (patt : List Char) (repl : Option (List Char)) (r : List Char),
        static_extract_record patt repl (some 0) r = [] := by
  constructor
  · intro m repl r
    have h : exLoop m repl (some 0) r (r.length + 1) 0 0 [] false = ([], false) := by
      cases hf : m.findAt r 0 with
      | none => simp [exLoop, hf]
      | some p => simp [exLoop, hf, stopCheck]
    simp [regex_extract_record, h]
  · intro patt repl r
    simp [static_extract_record, boundTake]

/-- Every character written by `static_replace`'s chunk/separator loop
comes from a chunk or from the replacement. -/
theorem joinSep_mem (sep : List Char) (l : List (List Char)) (x : Char)
    (hx : x ∈ joinSep sep l) : (∃ c ∈ l, x ∈ c) ∨ x ∈ sep := by
  cases l with
  | nil => simp [joinSep] at hx
  | cons a rest =>
    simp only [joinSep, List.mem_append, List.mem_flatten, List.mem_map] at hx
    rcases hx with hx | ⟨d, ⟨c, hc, rfl⟩, hxd⟩
    · exact Or.inl ⟨a, List.mem_cons_self a rest, hx⟩
    · rcases List.mem_append.mp hxd with h | h
      · exact Or.inr h
      · exact Or.inl ⟨c, List.mem_cons_of_mem _ hc, h⟩

/-- Every chunk produced by `split` is made of characters of the record. -/
theorem splitFuel_subset :
    ∀ (fuel : Nat) (patt s c : List Char), c ∈ splitFuel fuel patt s →
      ∀ x ∈ c, x ∈ s := by
  intro fuel
  induction fuel with
  | zero =>
    intro patt s c hc x hx
    simp only [splitFuel, List.mem_singleton] at hc
    subst hc; exact hx
  | succ f ih =>
    intro patt s c hc x hx
    simp only [splitFuel] at hc
    cases hfind : findSub patt s with
    | none =>
      rw [hfind] at hc
      simp only [List.mem_singleton] at hc
      subst hc; exact hx
    | some i =>
      rw [hfind] at hc
      simp only [List.mem_cons] at hc
      rcases hc with rfl | hc
      · exact List.take_subset i s hx
      · exact List.drop_subset _ s (ih patt _ c hc x hx)

/-- Every chunk produced by `splitn` is made of characters of the record. -/
theorem splitnList_subset :
    ∀ (n : Nat) (patt s c : List Char), c ∈ splitnList n patt s →
      ∀ x ∈ c, x ∈ s := by
  intro n
  induction n using Nat.strong_induction_on with
  | _ n ih =>
    intro patt s c hc x hx
    match n with
    | 0 => simp [splitnList] at hc
    | 1 =>
      simp only [splitnList, List.mem_singleton] at hc
      subst hc; exact hx
    | k + 2 =>
      simp only [splitnList] at hc
      cases hfind : findSub patt s with
      | none =>
        rw [hfind] at hc
        simp only [List.mem_singleton] at hc
        subst hc; exact hx
      | some i =>
        rw [hfind] at hc
        simp only [List.mem_cons] at hc
        rcases hc with rfl | hc
        · exact List.take_subset i s hx
        · exact List.drop_subset _ s (ih (k + 1) (by omega) patt _ c hc x hx)

/-- Every character written by the `replacen` accumulation loop comes from
the haystack or from an expanded template. -/
theorem replBuild_mem (m : RxMatcher) (repl text : List Char) :
    ∀ (spans : List (Nat × Nat)) (lastEnd : Nat) (x : Char),
      x ∈ replBuild m repl text spans lastEnd →
      x ∈ text ∨ ∃ sp, x ∈ m.expand repl text sp := by
  intro spans
  induction spans with
  | nil =>
    intro lastEnd x hx
    exact Or.inl (List.drop_subset _ _ hx)
  | cons p rest ih =>
    intro lastEnd x hx
    obtain ⟨s, e⟩ := p
    have hx' : x ∈ extractSlice text lastEnd s ++ m.expand repl text (s, e) ++
        replBuild m repl text rest e := hx
    simp only [extractSlice, List.mem_append] at hx'
    rcases hx' with (hx | hx) | hx
    · exact Or.inl (List.drop_subset _ _ (List.take_subset _ _ hx))
    · exact Or.inr ⟨(s, e), hx⟩
    · exact ih e x hx

/-- Claim C4, counterexample: a final record lacking a trailing input
delimiter produces output WITHOUT a trailing terminator.  Verbatim Replace
on input `"ab"` (no trailing newline) with the non-matching pattern `"z"`
outputs exactly `"ab"`, whose last byte is `'b'` — the program appended no
record terminator. -/
theorem fresh_c4_cex :
    static_replace_stream "z".toList "q".toList none "ab".toList
        = "ab".toList ∧
      (static_replace_stream "z".toList "q".toList none "ab".toList).getLast?
        = some 'b' := by
  decide

/-- Claim C4, amended: in Replace mode the program appends no terminator of
its own — a record's output is exactly its processed content, every byte of
which comes from the record or from the replacement (template expansion in
regex mode); a trailing newline appears only because `read_line` left the
input's delimiter inside the record, and a final record without one yields
output without a terminator. -/
theorem fresh_c4_amended :
    (∀ (patt repl : List Char) (bound : Option Nat) (r : List Char),
        '\n' ∉ r → '\n' ∉ repl →
        '\n' ∉ static_replace_record patt repl bound r) ∧
      ∀ (m : RxMatcher) (repl : List Char) (bound : Option Nat) (r : List Char),
        '\n' ∉ r → (∀ sp, '\n' ∉ m.expand repl r sp) →
        '\n' ∉ regex_replace_record m repl bound r := by
  constructor
  · intro patt repl bound r hr hrepl hmem
    cases bound with
    | some n =>
      simp only [static_replace_record] at hmem
      rcases joinSep_mem repl _ _ hmem with ⟨c, hc, hxc⟩ | h
      · exact hr (splitnList_subset n patt r c hc _ hxc)
      · exact hrepl h
    | none =>
      simp only [static_replace_record, splitList] at hmem
      rcases joinSep_mem repl _ _ hmem with ⟨c, hc, hxc⟩ | h
      · exact hr (splitFuel_subset (r.length + 1) patt r c hc _ hxc)
      · exact hrepl h
  · intro m repl bound r hr hexp hmem
    have key : ∀ limit, '\n' ∉ regexReplacen m r limit repl := by
      intro limit hm
      have hrw : regexReplacen m r limit repl =
          if (findIterList m r).isEmpty then r
          else replBuild m repl r
            (if limit = 0 then findIterList m r else (findIterList m r).take limit)
            0 := rfl
      rw [hrw] at hm
      by_cases hsp : (findIterList m r).isEmpty
      · rw [if_pos hsp] at hm; exact hr hm
      · rw [if_neg hsp] at hm
        rcases replBuild_mem m repl r _ 0 _ hm with h | ⟨sp, h⟩
        · exact hr h
        · exact hexp sp h
    cases bound with
    | some n => exact key n (by simpa [regex_replace_record] using hmem)
    | none => exact key 0 (by simpa [regex_replace_record] using hmem)

/-- The concrete replacement `"q"` contains no newline. -/
theorem nlq : ('\n' : Char) ∉ "q".toList := by
  decide

/-- Claim C4, witness for the amended theorem at concrete inputs. -/
theorem fresh_c4_amended_witness :
    '\n' ∉ "ab".toList ∧ '\n' ∉ "q".toList ∧
      '\n' ∉ static_replace_record "z".toList "q".toList none "ab".toList ∧
      '\n' ∉ regex_replace_record (litMatcher "z".toList) "q".toList none
        "ab".toList :=
  ⟨by decide, by decide,
    fresh_c4_amended.1 "z".toList "q".toList none "ab".toList (by decide)
      (by decide),
    fresh_c4_amended.2 (litMatcher "z".toList) "q".toList none "ab".toList
      (by decide) (fun _ => nlq)⟩

/-- Characterization of a successful literal find: the hit is at or after
the query position, inside the haystack, spans the pattern's length, and
the pattern really occurs there. -/
theorem litFindAt_some {patt r : List Char} {p i j : Nat}
    (h : litFindAt patt r p = some (i, j)) :
    p ≤ i ∧ i ≤ r.length ∧ j = i + patt.length ∧
      (r.drop i).take patt.length = patt := by
  unfold litFindAt at h
  rcases Option.map_eq_some'.mp h with ⟨a, ha, hg⟩
  have hmem : a ∈ (List.range (r.length + 1)).filter
      (fun i => decide (p ≤ i) && decide ((r.drop i).take patt.length = patt)) := by
    cases hfl : (List.range (r.length + 1)).filter
        (fun i => decide (p ≤ i) && decide ((r.drop i).take patt.length = patt)) with
    | nil => rw [hfl] at ha; simp at ha
    | cons b tl =>
      rw [hfl] at ha
      simp only [List.head?_cons, Option.some.injEq] at ha
      rw [ha]
      exact List.mem_cons_self a tl
  rcases List.mem_filter.mp hmem with ⟨hrange, hcond⟩
  simp only [Bool.and_eq_true, decide_eq_true_eq] at hcond
  have hlt : a < r.length + 1 := List.mem_range.mp hrange
  have hai : a = i ∧ a + patt.length = j := by
    have := Prod.mk.injEq .. ▸ hg
    exact ⟨congrArg Prod.fst hg, congrArg Prod.snd hg⟩
  rcases hai with ⟨rfl, hj⟩
  exact ⟨hcond.1, by omega, hj.symm, hcond.2⟩

/-- A successful `str::find` splits the haystack as prefix ++ pattern ++
suffix, and the hit lies inside the haystack. -/
theorem findSub_some {patt s : List Char} {i : Nat}
    (h : findSub patt s = some i) :
    s.take i ++ patt ++ s.drop (i + patt.length) = s ∧
      i + patt.length ≤ s.length := by
  unfold findSub at h
  rcases Option.map_eq_some'.mp h with ⟨q, hq, hfst⟩
  obtain ⟨a, b⟩ := q
  rcases litFindAt_some hq with ⟨_, hle, _, htake⟩
  have ha : a = i := hfst
  subst ha
  have hlen : patt.length ≤ (s.drop a).length := by
    conv_lhs => rw [← htake]
    exact (List.length_take ..).le.trans (by simp)
  rw [List.length_drop] at hlen
  constructor
  · have h1 : s.take a ++ s.drop a = s := List.take_append_drop a s
    have h2 : (s.drop a).take patt.length ++ (s.drop a).drop patt.length
        = s.drop a := List.take_append_drop _ _
    rw [htake] at h2
    have h3 : (s.drop a).drop patt.length = s.drop (a + patt.length) := by
      rw [List.drop_drop, Nat.add_comm]
    rw [h3] at h2
    rw [List.append_assoc, h2]
    exact h1
  · omega

/-- Joining a two-or-more chunk list inserts the separator once and
recurses. -/
theorem joinSep_cons_of_ne_nil (sep a : List Char) (l : List (List Char))
    (hl : l ≠ []) : joinSep sep (a :: l) = a ++ sep ++ joinSep sep l := by
  cases l with
  | nil => exact absurd rfl hl
  | cons b t => simp [joinSep, List.append_assoc]

/-- Joining a single chunk is the chunk. -/
theorem joinSep_singleton (sep a : List Char) : joinSep sep [a] = a := by
  simp [joinSep]

/-- `split` always yields at least one chunk. -/
theorem splitFuel_ne_nil (f : Nat) (patt s : List Char) :
    splitFuel f patt s ≠ [] := by
  cases f with
  | zero => simp [splitFuel]
  | succ f =>
    cases hfind : findSub patt s with
    | none => simp [splitFuel, hfind]
    | some i => simp [splitFuel, hfind]

/-- `splitn n` with nonzero `n` yields at least one chunk. -/
theorem splitnList_ne_nil (n : Nat) (patt s : List Char) (hn : n ≠ 0) :
    splitnList n patt s ≠ [] := by
  match n with
  | 0 => exact absurd rfl hn
  | 1 => simp [splitnList]
  | k + 2 =>
    cases hfind : findSub patt s with
    | none => simp [splitnList, hfind]
    | some i => simp [splitnList, hfind]

/-- Splitting on a nonempty pattern and re-joining on the same pattern
reconstructs the record (unbounded `split`). -/
theorem joinSep_splitFuel_self {patt : List Char} (hp : patt ≠ []) :
    ∀ (f : Nat) (s : List Char), s.length < f →
      joinSep patt (splitFuel f patt s) = s := by
  intro f
  induction f with
  | zero => intro s hs; omega
  | succ f ih =>
    intro s hs
    cases hfind : findSub patt s with
    | none => simp [splitFuel, hfind, joinSep_singleton]
    | some i =>
      rcases findSub_some hfind with ⟨hrec, hle⟩
      have hplen : 1 ≤ patt.length := by
        cases patt with
        | nil => exact absurd rfl hp
        | cons c t => simp
      have hlt : (s.drop (i + patt.length)).length < f := by
        rw [List.length_drop]; omega
      calc joinSep patt (splitFuel (f + 1) patt s)
          = joinSep patt
            (s.take i :: splitFuel f patt (s.drop (i + patt.length))) := by
            simp [splitFuel, hfind]
        _ = s.take i ++ patt ++
            joinSep patt (splitFuel f patt (s.drop (i + patt.length))) :=
            joinSep_cons_of_ne_nil _ _ _ (splitFuel_ne_nil f patt _)
        _ = s.take i ++ patt ++ s.drop (i + patt.length) := by rw [ih _ hlt]
        _ = s := hrec

/-- Splitting on a nonempty pattern with a nonzero chunk bound and
re-joining on the same pattern reconstructs the record (`splitn`). -/
theorem joinSep_splitnList_self {patt : List Char} :
    ∀ (n : Nat), n ≠ 0 → ∀ s : List Char,
      joinSep patt (splitnList n patt s) = s := by
  intro n
  induction n using Nat.strong_induction_on with
  | _ n ih =>
    intro hn s
    match n with
    | 0 => exact absurd rfl hn
    | 1 => simp [splitnList, joinSep_singleton]
    | k + 2 =>
      cases hfind : findSub patt s with
      | none => simp [splitnList, hfind, joinSep_singleton]
      | some i =>
        rcases findSub_some hfind with ⟨hrec, _⟩
        calc joinSep patt (splitnList (k + 2) patt s)
            = joinSep patt
              (s.take i :: splitnList (k + 1) patt (s.drop (i + patt.length))) := by
              simp [splitnList, hfind]
          _ = s.take i ++ patt ++
              joinSep patt (splitnList (k + 1) patt (s.drop (i + patt.length))) :=
              joinSep_cons_of_ne_nil _ _ _ (splitnList_ne_nil _ _ _ (by omega))
          _ = s.take i ++ patt ++ s.drop (i + patt.length) := by
              rw [ih (k + 1) (by omega) (by omega) _]
          _ = s := hrec

/-- `str::find` of the empty pattern hits immediately at position 0. -/
theorem findSub_nil (s : List Char) : findSub [] s = some 0 := by
  simp [findSub, litFindAt, List.range_succ_eq_map, List.filter_cons]

/-- Splitting on the empty pattern and re-joining on the empty separator
also reconstructs the record: every chunk boundary inserts nothing, and
the chunks concatenate back to the record. -/
theorem joinSep_splitFuel_nil :
    ∀ (f : Nat) (s : List Char), joinSep [] (splitFuel f [] s) = s := by
  intro f
  induction f with
  | zero => intro s; simp [splitFuel, joinSep_singleton]
  | succ f ih =>
    intro s
    calc joinSep [] (splitFuel (f + 1) [] s)
        = joinSep [] ([] :: splitFuel f [] s) := by
          simp [splitFuel, findSub_nil]
      _ = [] ++ [] ++ joinSep [] (splitFuel f [] s) :=
          joinSep_cons_of_ne_nil _ _ _ (splitFuel_ne_nil f [] s)
      _ = s := by simp [ih]

/-- Claim C8, counterexample: Replace with `template = pattern` is NOT the
identity for every pattern, bound and match mode.  Verbatim mode with
pattern = template = `"a"` and `max = 0`: the `splitn(0, ...)` branch
erases the record `"a"` entirely, yielding empty output instead of the
record.  Regex mode with pattern = template = `"."` (unbounded): on record
`"a\n"` the dot matches `"a"` and is replaced by the literal template
`"."`, yielding `".\n"` instead of the record — a regex pattern's matched
text need not equal the pattern string. -/
theorem fresh_c8_cex :
    static_replace_record "a".toList "a".toList (some 0) "a".toList = [] ∧
      "a".toList = ['a'] ∧
      regex_replace_record dotMatcher ".".toList none "a\n".toList
        = ['.', '\n'] ∧
      "a\n".toList = ['a', '\n'] := by
  decide

/-- Claim C8, amended: in Verbatim mode, Replace with
`template = pattern` leaves every record unchanged for every pattern
(the empty pattern included) and every bound other than `max = 0` — for
`max = 0` the `splitn(0, ...)` branch erases the record, and in Regex
mode identity fails because the matched text need not equal the pattern
string (both shown by the counterexample). -/
theorem fresh_c8_amended :
    ∀ (patt : List Char) (bound : Option Nat) (r : List Char),
      bound ≠ some 0 →
      static_replace_record patt patt bound r = r := by
  intro patt bound r hb
  cases bound with
  | none =>
    by_cases hp : patt = []
    · subst hp
      simpa [static_replace_record, splitList] using
        joinSep_splitFuel_nil (r.length + 1) r
    · simpa [static_replace_record, splitList] using
        joinSep_splitFuel_self hp (r.length + 1) r (by omega)
  | some n =>
    have hn : n ≠ 0 := by
      intro h
      exact hb (by rw [h])
    simpa [static_replace_record] using
      joinSep_splitnList_self n hn r

/-- Claim C8, witness for the amended theorem at concrete inputs,
exercising both an ordinary pattern with an unbounded count and the
empty pattern with a bounded count. -/
theorem fresh_c8_amended_witness :
    (none : Option Nat) ≠ some 0 ∧
      static_replace_record "a".toList "a".toList none "aaa\n".toList
        = "aaa\n".toList ∧
      (some 3 : Option Nat) ≠ some 0 ∧
      static_replace_record ([] : List Char) [] (some 3) "ab".toList
        = "ab".toList :=
  ⟨by decide,
    fresh_c8_amended "a".toList none "aaa\n".toList (by decide),
    by decide,
    fresh_c8_amended [] (some 3) "ab".toList (by decide)⟩

/-- Claim C7: in Extract mode with no template, a record with exactly two
matches (within the bound) produces exactly the concatenation of the two
matched substrings — no separator bytes between them — followed by exactly
one record terminator, in both match modes.  Regex mode: the loop writes
`m.as_str()` per match and one `"\n"` after; Verbatim mode: each matched
substring of a literal pattern is the pattern itself, so the output is
`patt ++ patt ++ "\n"`. -/
theorem fresh_c7 :
    (∀ (m : RxMatcher) (bound : Option Nat) (r : List Char) (s1 e1 s2 e2 : Nat),
        m.findAt r 0 = some (s1, e1) → m.findAt r e1 = some (s2, e2) →
        m.findAt r e2 = none → 0 < e1 → e1 < e2 → e2 ≤ r.length →
        (∀ b, bound = some b → 2 ≤ b) →
        regex_extract_record m none bound r =
          extractSlice r s1 e1 ++ extractSlice r s2 e2 ++ ['\n']) ∧
      ∀ (patt : List Char) (bound : Option Nat) (r : List Char),
        (matchesList patt r).length = 2 → (∀ b, bound = some b → 2 ≤ b) →
        static_extract_record patt none bound r = patt ++ patt ++ ['\n'] := by
  constructor
  · intro m bound r s1 e1 s2 e2 h1 h2 h3 he1 he2 hlen hb
    have hb0 : stopCheck bound 0 = false := by
      cases bound with
      | none => rfl
      | some b =>
        have := hb b rfl
        simp [stopCheck]
        omega
    have hb1 : stopCheck bound 1 = false := by
      cases bound with
      | none => rfl
      | some b =>
        have := hb b rfl
        simp [stopCheck]
        omega
    obtain ⟨f, hf⟩ : ∃ f, r.length + 1 = f + 3 := ⟨r.length - 2, by omega⟩
    have hloop : exLoop m none bound r (r.length + 1) 0 0 [] false =
        (extractSlice r s1 e1 ++ extractSlice r s2 e2, true) := by
      rw [hf]
      simp [exLoop, h1, h2, h3, hb0, hb1, exContrib]
    simp [regex_extract_record, hloop]
  · intro patt bound r hms hb
    have hused : boundTake bound (matchesList patt r) = matchesList patt r := by
      cases bound with
      | none => rfl
      | some b =>
        simp only [boundTake]
        apply List.take_of_length_le
        rw [hms]
        exact hb b rfl
    rcases List.length_eq_two.mp hms with ⟨a, b, hab⟩
    rw [hab] at hused
    simp [static_extract_record, hab, hused]

/-- Claim C7, witness at concrete inputs: literal regex `"a"` on record
`"aa\n"` (two matches) and verbatim pattern `"ab"` on record `"abab\n"`
with `max = 2`. -/
theorem fresh_c7_witness :
    regex_extract_record (litMatcher "a".toList) none none "aa\n".toList
        = extractSlice "aa\n".toList 0 1 ++ extractSlice "aa\n".toList 1 2
          ++ ['\n'] ∧
      static_extract_record "ab".toList none (some 2) "abab\n".toList
        = "ab".toList ++ "ab".toList ++ ['\n'] :=
  ⟨fresh_c7.1 (litMatcher "a".toList) none "aa\n".toList 0 1 1 2 (by decide)
      (by decide) (by decide) (by decide) (by decide) (by decide)
      (fun b h => nomatch h),
    fresh_c7.2 "ab".toList (some 2) "abab\n".toList (by decide)
      (fun b h => by cases h; decide)⟩

/-- The `regex_extract` loop's output is the concatenation, over the spans
it consumes, of the per-match contribution, after the starting
accumulator; `matched` ends true exactly when it started true or at least
one span was consumed. -/
theorem exLoop_spans (m : RxMatcher) (repl : Option (List Char))
    (bound : Option Nat) (r : List Char) :
    ∀ (fuel n capIdx : Nat) (acc : List Char) (matched : Bool),
      exLoop m repl bound r fuel n capIdx acc matched =
        (acc ++ ((exSpans m bound r fuel n capIdx).map
            (fun p => exContrib m repl r p.1 p.2)).flatten,
          matched || !(exSpans m bound r fuel n capIdx).isEmpty) := by
  intro fuel
  induction fuel with
  | zero =>
    intro n capIdx acc matched
    simp [exLoop, exSpans]
  | succ f ih =>
    intro n capIdx acc matched
    cases hfind : m.findAt r capIdx with
    | none => simp [exLoop, exSpans, hfind]
    | some p =>
      obtain ⟨s, e⟩ := p
      cases hstop : stopCheck bound n with
      | true => simp [exLoop, exSpans, hfind, hstop]
      | false =>
        simp only [exLoop, exSpans, hfind, hstop]
        rw [ih]
        simp [List.append_assoc]

/-- Claim C10: in regex Extract mode with a template, the bytes emitted
for each consumed match are `re.replace` — the compiled pattern re-run
against the matched substring alone, with its first match replaced by the
expanded template — concatenated over all consumed matches (plus one
terminator when any match was consumed); and when the pattern does not
match the extracted substring in isolation, `re.replace` returns the raw
slice unchanged, so the raw matched bytes are emitted with no template
expansion applied. -/
theorem fresh_c10 :
    (∀ (m : RxMatcher) (tmpl : List Char) (bound : Option Nat) (r : List Char),
        regex_extract_record m (some tmpl) bound r =
          if (extractSpans m bound r).isEmpty then []
          else ((extractSpans m bound r).map
              (fun p => regexReplace1 m (extractSlice r p.1 p.2) tmpl)).flatten
            ++ ['\n']) ∧
      ∀ (m : RxMatcher) (hay tmpl : List Char),
        m.findAt hay 0 = none → regexReplace1 m hay tmpl = hay := by
  constructor
  · intro m tmpl bound r
    have h := exLoop_spans m (some tmpl) bound r (r.length + 1) 0 0 [] false
    simp only [exContrib] at h
    cases hsp : (exSpans m bound r (r.length + 1) 0 0).isEmpty with
    | true =>
      have hnil : exSpans m bound r (r.length + 1) 0 0 = [] :=
        List.isEmpty_iff.mp hsp
      simp [regex_extract_record, extractSpans, h, hnil]
    | false =>
      simp [regex_extract_record, extractSpans, h, hsp]
  · intro m hay tmpl hfind
    have hnil : findIterList m hay = [] := by
      unfold findIterList
      simp [findIterFuel, hfind]
    simp [regexReplace1, regexReplacen, hnil]

/-- Claim C10, witness: a literal pattern `"z"` does not match the
haystack `"abc"` in isolation, and `re.replace` leaves it unchanged. -/
theorem fresh_c10_witness :
    (litMatcher "z".toList).findAt "abc".toList 0 = none ∧
      regexReplace1 (litMatcher "z".toList) "abc".toList "T".toList
        = "abc".toList :=
  ⟨by decide,
    fresh_c10.2 (litMatcher "z".toList) "abc".toList "T".toList (by decide)⟩

/-- Against a pattern that matches the empty string (e.g. `x*`) the
`regex_extract` loop never advances: after every number of iterations on
the record `"a\n"` with no bound it is still running, with `cap_idx`
stuck at 0, the accumulator empty, and only the iteration counter
growing. -/
theorem extractIter_empty_stuck :
    ∀ k : Nat, extractIter emptyMatcher none none "a\n".toList (k + 1) =
      some ⟨k + 1, 0, [], true⟩ := by
  intro k
  induction k with
  | zero => decide
  | succ k ih =>
    show (extractIter emptyMatcher none none "a\n".toList (k + 1)).bind
        (extractStep emptyMatcher none none "a\n".toList) = _
    rw [ih]
    simp [extractStep, emptyMatcher, stopCheck, exContrib, extractSlice]

/-- Claim C5: the spec requires the per-record match loop to terminate for
every pattern, with the scan position advancing at least one byte past a
zero-width match.  The code's `regex_extract` loop violates this: with a
compiled pattern matching the empty string (`x*`) on record `"a\n"`,
unbounded, after any number of iterations the loop is still running and
its scan position `cap_idx` is still 0 — `cap_idx = m.end()` never
advances past a zero-width match, so the loop runs forever. -/
theorem fresh_c5_eval :
    ∀ k : Nat, ∃ st : ExState,
      extractIter emptyMatcher none none "a\n".toList (k + 1) = some st ∧
        st.capIdx = 0 :=
  fun k => ⟨⟨k + 1, 0, [], true⟩, extractIter_empty_stuck k, rfl⟩

/-- Claim C9: the spec says per-record matching, replacing and extracting
are total after session setup.  Extraction is not total: on the record
`"a\n"` with an empty-matching pattern and no bound, the `regex_extract`
loop has not exited after any number of iterations, so it never completes
a record (the error-freedom part of the claim holds — the loops have no
per-record error path — but totality fails). -/
theorem fresh_c9_eval :
    ∀ k : Nat,
      (extractIter emptyMatcher none none "a\n".toList k).isSome = true := by
  intro k
  cases k with
  | zero => rfl
  | succ k =>
    rw [extractIter_empty_stuck k]
    rfl
